import Mathlib

/-!
Verification of the Canvas / PNG-encoder core of the Tech-Flow-Game asset
generator scripts (`scripts/generate_screenshots.py` and
`scripts/generate_pwa_icons.py`).

Modelling conventions:
* a Python `bytearray` is a `List ℕ` of byte values;
* Python integers are `ℤ` (coordinates, alphas) or `ℕ` (sizes, channel values
  that are always non-negative at the call sites);
* Python float arithmetic inside `Canvas.blend`, the `LCG` and the procedural
  generators is modelled by exact rational arithmetic (`ℚ`); `int(x)` is
  truncation toward zero (`pyInt`);
* `zlib.compress` and `binascii.crc32` are platform-provided primitives and
  enter the model as opaque function parameters;
* Python slice assignment of equal length, `buf[i:i+n] = seg`, is the
  element-wise update `writeBytes`.
-/

namespace TechFlow

/-- Python `int()` applied to a rational value: truncation toward zero
    (`num.tdiv den` truncates toward zero). -/
def pyInt (q : ℚ) : ℤ := q.num.tdiv q.den

/-- `max(0, min(255, v))`, the byte clamp used by `Canvas.blend`. -/
def clampByte (v : ℤ) : ℕ := (max 0 (min 255 v)).toNat

/-- Python slice assignment `buf[i:i+len(seg)] = seg` (lengths equal at all
    call sites, so it is the element-wise update of positions `i, i+1, ...`). -/
def writeBytes : List ℕ → ℕ → List ℕ → List ℕ
  | l, _, [] => l
  | l, i, b :: rest => writeBytes (l.set i b) (i + 1) rest

/-- Python `range(a, b)` over the integers. -/
def intRange (a b : ℤ) : List ℤ := (List.range (b - a).toNat).map (fun i : ℕ => a + (i : ℤ))

/-- Python `range(a, b, step)` for a positive `step`. -/
def rangeStep (a b step : ℤ) : List ℤ :=
  (List.range ((b - a + step - 1).toNat / step.toNat)).map (fun i : ℕ => a + step * (i : ℤ))

/-- `bytes((r, g, b, a)) * n`: the pixel quadruple repeated `n` times. -/
def segBytes (r g b a : ℕ) : ℕ → List ℕ
  | 0 => []
  | n + 1 => r :: g :: b :: a :: segBytes r g b a n

/-- `class Canvas`: an RGBA framebuffer `w × h` with a flat byte buffer.
    (`write_png` in the icon script keeps the same buffer layout in its local
    `pix` bytearray.) -/
structure Canvas where
  w : ℕ
  h : ℕ
  data : List ℕ
  deriving DecidableEq

/-- `Canvas(w, h)`: `data = bytearray(w * h * 4)` (zero-filled). -/
def Canvas.init (w h : ℕ) : Canvas := ⟨w, h, List.replicate (w * h * 4) 0⟩

/-- `Canvas.set` (identical to `set_px` in the icon script): overwrite the
    pixel at `(x, y)` when in bounds, no-op otherwise. -/
def Canvas.set (c : Canvas) (x y : ℤ) (r g b a : ℕ) : Canvas :=
  if 0 ≤ x ∧ x < c.w ∧ 0 ≤ y ∧ y < c.h then
    { c with data := writeBytes c.data ((y.toNat * c.w + x.toNat) * 4) [r, g, b, a] }
  else c

/-- `Canvas.fill_row`: overwrite the clamped column range `[x0, x1)` of
    scanline `y` with the solid color. -/
def Canvas.fill_row (c : Canvas) (y x0 x1 : ℤ) (r g b a : ℕ) : Canvas :=
  if y < 0 ∨ (c.h : ℤ) ≤ y then c
  else
    let x0c := max 0 x0
    let x1c := min (c.w : ℤ) x1
    if x1c ≤ x0c then c
    else
      { c with data :=
          writeBytes c.data ((y.toNat * c.w + x0c.toNat) * 4) (segBytes r g b a (x1c - x0c).toNat) }

/-- `Canvas.fill_rect`: `fill_row` on every scanline of `range(max(0,y0), min(h,y1))`. -/
def Canvas.fill_rect (c : Canvas) (x0 y0 x1 y1 : ℤ) (r g b a : ℕ) : Canvas :=
  (intRange (max 0 y0) (min (c.h : ℤ) y1)).foldl
    (fun acc y => acc.fill_row y x0 x1 r g b a) c

/-- `Canvas.blend`: "over" alpha compositing of `(r, g, b)` with source alpha
    `a` onto the pixel at `(x, y)`.  The four destination bytes are read before
    any write (the Python statements write `d[i] ... d[i+3]` in order, and each
    right-hand side only reads bytes not yet overwritten). -/
def Canvas.blend (c : Canvas) (x y : ℤ) (r g b : ℕ) (a : ℤ) : Canvas :=
  if a ≤ 0 ∨ ¬(0 ≤ x ∧ x < c.w ∧ 0 ≤ y ∧ y < c.h) then c
  else
    let i := (y.toNat * c.w + x.toNat) * 4
    let sa : ℚ := (a : ℚ) / 255
    let da : ℚ := (c.data.getD (i + 3) 0 : ℚ) / 255
    let oa : ℚ := sa + da * (1 - sa)
    if 0 < oa then
      let inv : ℚ := 1 / oa
      let v0 := clampByte (pyInt (((r : ℚ) * sa + (c.data.getD i 0 : ℚ) * da * (1 - sa)) * inv))
      let v1 := clampByte (pyInt (((g : ℚ) * sa + (c.data.getD (i + 1) 0 : ℚ) * da * (1 - sa)) * inv))
      let v2 := clampByte (pyInt (((b : ℚ) * sa + (c.data.getD (i + 2) 0 : ℚ) * da * (1 - sa)) * inv))
      let v3 := clampByte (pyInt (oa * 255))
      { c with data := (((c.data.set i v0).set (i + 1) v1).set (i + 2) v2).set (i + 3) v3 }
    else c

/-- `Canvas.blend_row`: `blend` across the clamped column range of one scanline. -/
def Canvas.blend_row (c : Canvas) (y x0 x1 : ℤ) (r g b : ℕ) (a : ℤ) : Canvas :=
  (intRange (max 0 x0) (min (c.w : ℤ) x1)).foldl
    (fun acc x => acc.blend x y r g b a) c

/-- The four bytes of pixel `(x, y)` (read with default 0). -/
def Canvas.getPx (c : Canvas) (x y : ℕ) : List ℕ :=
  [c.data.getD ((y * c.w + x) * 4) 0, c.data.getD ((y * c.w + x) * 4 + 1) 0,
   c.data.getD ((y * c.w + x) * 4 + 2) 0, c.data.getD ((y * c.w + x) * 4 + 3) 0]

/-- The scanline slice `data[y*w*4 : (y+1)*w*4]` of row `y`. -/
def Canvas.rowBytes (c : Canvas) (y : ℕ) : List ℕ :=
  (c.data.drop (y * c.w * 4)).take (c.w * 4)

/-- The filtered scanline stream `raw` built by both `Canvas.save_png` and the
    icon script's `write_png`: for each row top-to-bottom, append the filter
    byte `0` and then the row's RGBA bytes. -/
def Canvas.png_raw (c : Canvas) : List ℕ :=
  (List.range c.h).foldl (fun raw y => raw ++ (0 :: c.rowBytes y)) []

/-- `struct.pack("!I", n)`: the 4-byte big-endian encoding (callers keep
    `n < 2^32`; the definition reduces `n` modulo `2^32` byte by byte). -/
def packBE32 (n : ℕ) : List ℕ :=
  [n / 2 ^ 24 % 256, n / 2 ^ 16 % 256, n / 2 ^ 8 % 256, n % 256]

/-- The value of a big-endian byte string. -/
def beVal (bs : List ℕ) : ℕ := bs.foldl (fun acc b => acc * 256 + b) 0

/-- `chunk(typ, data)` of `save_png` / `write_png`: big-endian payload length,
    type tag, payload, big-endian `binascii.crc32(typ + data) & 0xFFFFFFFF`.
    `crc32` is the platform checksum, passed as a parameter. -/
def chunk (crc32 : List ℕ → ℕ) (typ data : List ℕ) : List ℕ :=
  packBE32 data.length ++ typ ++ data ++ packBE32 (crc32 (typ ++ data) % 2 ^ 32)

/-- `b"\x89PNG\r\n\x1a\n"`. -/
def pngSignature : List ℕ := [0x89, 0x50, 0x4E, 0x47, 0x0D, 0x0A, 0x1A, 0x0A]

/-- ASCII bytes of `b"IHDR"`. -/
def typeIHDR : List ℕ := [0x49, 0x48, 0x44, 0x52]

/-- ASCII bytes of `b"IDAT"`. -/
def typeIDAT : List ℕ := [0x49, 0x44, 0x41, 0x54]

/-- ASCII bytes of `b"IEND"`. -/
def typeIEND : List ℕ := [0x49, 0x45, 0x4E, 0x44]

/-- IHDR payload `struct.pack("!IIBBBBB", w, h, 8, 6, 0, 0, 0)`. -/
def ihdrPayload (w h : ℕ) : List ℕ := packBE32 w ++ packBE32 h ++ [8, 6, 0, 0, 0]

/-- The PNG byte stream assembled by `Canvas.save_png` (and, with the same
    code, `write_png` in the icon script).  `compress` stands for
    `zlib.compress(·, level)` (level 6 resp. 9), `crc32` for `binascii.crc32`. -/
def Canvas.png_stream (compress : List ℕ → List ℕ) (crc32 : List ℕ → ℕ)
    (c : Canvas) : List ℕ :=
  pngSignature
    ++ chunk crc32 typeIHDR (ihdrPayload c.w c.h)
    ++ chunk crc32 typeIDAT (compress c.png_raw)
    ++ chunk crc32 typeIEND []

/-- `class LCG`: 32-bit linear congruential generator state. -/
structure LCG where
  state : ℕ

/-- `LCG(seed)`: `state = seed & 0xFFFFFFFF`. -/
def LCG.init (seed : ℕ) : LCG := ⟨seed % 2 ^ 32⟩

/-- `LCG.next`: advance `state = (state * 1664525 + 1013904223) & 0xFFFFFFFF`
    and return `state / 0xFFFFFFFF`. -/
def LCG.next (g : LCG) : ℚ × LCG :=
  let s : ℕ := (g.state * 1664525 + 1013904223) % 2 ^ 32
  ((s : ℚ) / 0xFFFFFFFF, ⟨s⟩)

/-- `LCG.int_range(lo, hi) = lo + int(next() * (hi - lo))`. -/
def LCG.int_range (g : LCG) (lo hi : ℤ) : ℤ × LCG :=
  let p := g.next
  (lo + pyInt (p.1 * ((hi : ℚ) - (lo : ℚ))), p.2)

/-- `draw_stars(c, sky_h, seed)`: `count = c.w * sky_h // 600` pseudo-random
    star pixels.  `bright` lies in `[80, 220]` at every call, so the `.toNat`
    coercions into the byte-valued channels of `Canvas.set` are exact. -/
def draw_stars (c : Canvas) (sky_h : ℕ) (seed : ℕ) : Canvas :=
  (List.range (c.w * sky_h / 600)).foldl
    (fun p _ =>
      let p1 := p.2.next
      let x := pyInt (p1.1 * (p.1.w : ℚ))
      let p2 := p1.2.next
      let y := pyInt (p2.1 * (sky_h : ℚ))
      let p3 := p2.2.int_range 80 220
      let bright := p3.1.toNat
      let p4 := p3.2.next
      if p4.1 > 13 / 20 then
        (p.1.set x y 46 bright 255 bright, p4.2)
      else
        (p.1.set x y bright bright bright bright, p4.2))
    (c, LCG.init seed) |>.1

/-- The window-dot double loop of `draw_buildings` for one building, threading
    the window generator `wrng` through both loops. -/
def windows_pass (c : Canvas) (wrng : LCG) (x bw bY gy : ℤ) : Canvas × LCG :=
  (rangeStep (bY + 5) (gy - 5) 9).foldl
    (fun p wy =>
      (rangeStep (x + 4) (x + bw - 4) 9).foldl
        (fun p2 wx =>
          let q1 := p2.2.next
          if q1.1 > 13 / 25 then
            let q2 := q1.2.next
            if q2.1 > 1 / 2 then (p2.1.set wx wy 180 220 90 130, q2.2)
            else (p2.1.set wx wy 46 248 255 110, q2.2)
          else (p2.1, q1.2))
        p)
    (c, wrng)

/-- The `while x < c.w` loop of `draw_buildings` for one layer.  The loop has
    no syntactic bound (its increment is pseudo-random and may be 0), so it is
    modelled with an explicit `fuel` bound; every terminating Python run is the
    value at any sufficiently large fuel. -/
def buildings_loop (sky_top gy : ℤ) (layer : ℕ) :
    ℕ → Canvas → LCG → ℤ → Canvas
  | 0, c, _, _ => c
  | fuel + 1, c, rng, x =>
    if x < (c.w : ℤ) then
      let pbw := rng.int_range (pyInt ((c.w : ℚ) * (4 / 100))) (pyInt ((c.w : ℚ) * (12 / 100)))
      let pbh := pbw.2.int_range (pyInt (((gy : ℚ) - (sky_top : ℚ)) * (12 / 100)))
                                 (pyInt (((gy : ℚ) - (sky_top : ℚ)) * (60 / 100)))
      let bY := gy - pbh.1
      let col : ℕ × ℕ × ℕ := if layer = 0 then (18, 12, 52) else (24, 17, 68)
      let c1 := c.fill_rect x bY (x + pbw.1) gy col.1 col.2.1 col.2.2 255
      let pws := pbh.2.int_range 0 99999
      let c2 := (windows_pass c1 (LCG.init pws.1.toNat) x pbw.1 bY gy).1
      let pdx := pws.2.int_range 0 8
      buildings_loop sky_top gy layer fuel c2 pdx.2 (x + pbw.1 + pdx.1)
    else c

/-- `draw_buildings(c, sky_top, ground_y, seed)`: two independently seeded
    skyline layers (`fuel` bounds each layer's `while` loop). -/
def draw_buildings (fuel : ℕ) (c : Canvas) (sky_top ground_y : ℤ) (seed : ℕ) : Canvas :=
  (List.range 2).foldl
    (fun acc layer => buildings_loop sky_top ground_y layer fuel acc
      (LCG.init (seed + layer * 1000)) 0) c

/-! ### Basic helper lemmas -/

theorem pyInt_eq_floor (q : ℚ) (h : 0 ≤ q) : pyInt q = ⌊q⌋ := by
  unfold pyInt
  rw [Int.tdiv_eq_ediv (Rat.num_nonneg.mpr h) (Int.natCast_nonneg q.den)]
  conv_rhs => rw [← Rat.num_div_den q, Rat.floor_intCast_div_natCast]

theorem pyInt_natCast_div (n d : ℕ) : pyInt ((n : ℚ) / (d : ℚ)) = ((n / d : ℕ) : ℤ) := by
  rw [pyInt_eq_floor _ (by positivity)]
  have h := Rat.floor_intCast_div_natCast (n : ℤ) d
  rw [Int.cast_natCast] at h
  rw [h]
  omega

theorem pyInt_natCast (n : ℕ) : pyInt (n : ℚ) = (n : ℤ) := by
  have := pyInt_natCast_div n 1
  simpa using this

theorem clampByte_natCast (n : ℕ) : clampByte (n : ℤ) = min 255 n := by
  unfold clampByte
  omega

theorem writeBytes_length (seg : List ℕ) :
    ∀ (l : List ℕ) (i : ℕ), (writeBytes l i seg).length = l.length := by
  induction seg with
  | nil => intro l i; rfl
  | cons b rest ih => intro l i; rw [writeBytes, ih, List.length_set]

theorem writeBytes_getElem? (seg : List ℕ) :
    ∀ (l : List ℕ) (i j : ℕ), i + seg.length ≤ l.length →
      (writeBytes l i seg)[j]? =
        if i ≤ j ∧ j < i + seg.length then seg[j - i]? else l[j]? := by
  induction seg with
  | nil =>
    intro l i j _
    simp only [writeBytes, List.length_nil]
    rw [if_neg (by omega)]
  | cons b rest ih =>
    intro l i j hlen
    simp only [List.length_cons] at hlen ⊢
    rw [writeBytes, ih _ _ _ (by rw [List.length_set]; omega)]
    rcases Nat.lt_trichotomy j i with h | h | h
    · rw [if_neg (by omega), if_neg (by omega), List.getElem?_set, if_neg (by omega)]
    · subst h
      rw [if_neg (by omega), if_pos (by omega), List.getElem?_set, if_pos rfl,
        if_pos (by omega), Nat.sub_self]
      simp
    · by_cases h2 : j < i + 1 + rest.length
      · rw [if_pos (by omega), if_pos (by omega)]
        have hji : j - i = (j - (i + 1)) + 1 := by omega
        rw [hji, List.getElem?_cons_succ]
      · rw [if_neg (by omega), if_neg (by omega), List.getElem?_set, if_neg (by omega)]

theorem writeBytes_getD (seg l : List ℕ) (i j : ℕ) (h : i + seg.length ≤ l.length) :
    (writeBytes l i seg).getD j 0 =
      if i ≤ j ∧ j < i + seg.length then seg.getD (j - i) 0 else l.getD j 0 := by
  rw [List.getD_eq_getElem?_getD, writeBytes_getElem? _ _ _ _ h]
  split <;> rw [List.getD_eq_getElem?_getD]

theorem getD_set (l : List ℕ) (i j v : ℕ) :
    (l.set i v).getD j 0 = if i = j ∧ j < l.length then v else l.getD j 0 := by
  rw [List.getD_eq_getElem?_getD, List.getElem?_set]
  by_cases hij : i = j
  · subst hij
    by_cases hl : i < l.length
    · rw [if_pos rfl, if_pos hl, if_pos ⟨rfl, hl⟩]
      rfl
    · rw [if_pos rfl, if_neg hl, if_neg (by omega), List.getD_eq_getElem?_getD,
        List.getElem?_eq_none (by omega)]
  · rw [if_neg hij, if_neg (by tauto), List.getD_eq_getElem?_getD]

theorem segBytes_length (r g b a : ℕ) : ∀ n, (segBytes r g b a n).length = 4 * n := by
  intro n
  induction n with
  | zero => rfl
  | succ m ih => simp only [segBytes, List.length_cons, ih]; omega

theorem segBytes_getD (r g b a : ℕ) :
    ∀ n j, j < 4 * n → (segBytes r g b a n).getD j 0 = [r, g, b, a].getD (j % 4) 0 := by
  intro n
  induction n with
  | zero => omega
  | succ m ih =>
    intro j hj
    by_cases h4 : j < 4
    · interval_cases j <;> rfl
    · have hj4 : j = (j - 4) + 4 := by omega
      rw [hj4]
      show (segBytes r g b a m).getD (j - 4) 0 = _
      rw [ih (j - 4) (by omega)]
      congr 1
      omega

/-! ### Dimension and length preservation -/

theorem set_dims (c : Canvas) (x y : ℤ) (r g b a : ℕ) :
    (c.set x y r g b a).w = c.w ∧ (c.set x y r g b a).h = c.h ∧
      (c.set x y r g b a).data.length = c.data.length := by
  unfold Canvas.set
  split <;> simp [writeBytes_length]

theorem fill_row_dims (c : Canvas) (y x0 x1 : ℤ) (r g b a : ℕ) :
    (c.fill_row y x0 x1 r g b a).w = c.w ∧ (c.fill_row y x0 x1 r g b a).h = c.h ∧
      (c.fill_row y x0 x1 r g b a).data.length = c.data.length := by
  unfold Canvas.fill_row
  split
  · exact ⟨rfl, rfl, rfl⟩
  · simp only []
    split <;> simp [writeBytes_length]

theorem blend_dims (c : Canvas) (x y : ℤ) (r g b : ℕ) (a : ℤ) :
    (c.blend x y r g b a).w = c.w ∧ (c.blend x y r g b a).h = c.h ∧
      (c.blend x y r g b a).data.length = c.data.length := by
  unfold Canvas.blend
  split
  · exact ⟨rfl, rfl, rfl⟩
  · simp only []
    split <;> simp

theorem foldl_dims {α : Type} (f : Canvas → α → Canvas)
    (hf : ∀ c z, (f c z).w = c.w ∧ (f c z).h = c.h ∧ (f c z).data.length = c.data.length) :
    ∀ (l : List α) (c : Canvas),
      ((l.foldl f c).w = c.w ∧ (l.foldl f c).h = c.h ∧
        (l.foldl f c).data.length = c.data.length) := by
  intro l
  induction l with
  | nil => intro c; exact ⟨rfl, rfl, rfl⟩
  | cons z rest ih =>
    intro c
    rw [List.foldl_cons]
    obtain ⟨h1, h2, h3⟩ := ih (f c z)
    obtain ⟨g1, g2, g3⟩ := hf c z
    exact ⟨h1.trans g1, h2.trans g2, h3.trans g3⟩

theorem fill_rect_dims (c : Canvas) (x0 y0 x1 y1 : ℤ) (r g b a : ℕ) :
    (c.fill_rect x0 y0 x1 y1 r g b a).w = c.w ∧ (c.fill_rect x0 y0 x1 y1 r g b a).h = c.h ∧
      (c.fill_rect x0 y0 x1 y1 r g b a).data.length = c.data.length :=
  foldl_dims _ (fun c' z => fill_row_dims c' z x0 x1 r g b a) _ c

theorem blend_row_dims (c : Canvas) (y x0 x1 : ℤ) (r g b : ℕ) (a : ℤ) :
    (c.blend_row y x0 x1 r g b a).w = c.w ∧ (c.blend_row y x0 x1 r g b a).h = c.h ∧
      (c.blend_row y x0 x1 r g b a).data.length = c.data.length :=
  foldl_dims _ (fun c' z => blend_dims c' z y r g b a) _ c

/-! ### Index arithmetic and range membership -/

theorem px_lt (w h v u : ℕ) (hu : u < w) (hv : v < h) : v * w + u < w * h := by
  have h1 : v * w + u < (v + 1) * w := by
    rw [add_mul, one_mul]
    exact Nat.add_lt_add_left hu _
  have h2 : (v + 1) * w ≤ h * w := Nat.mul_le_mul_right _ hv
  calc v * w + u < (v + 1) * w := h1
    _ ≤ h * w := h2
    _ = w * h := Nat.mul_comm h w

theorem row_sep (w v u v' u' : ℕ) (hu : u < w) (hvv : v < v') : v * w + u < v' * w + u' := by
  have h1 : v * w + u < (v + 1) * w := by
    rw [add_mul, one_mul]
    exact Nat.add_lt_add_left hu _
  have h2 : (v + 1) * w ≤ v' * w := Nat.mul_le_mul_right _ hvv
  exact lt_of_lt_of_le h1 (le_trans h2 (Nat.le_add_right _ _))

theorem row_sep_le (w v u v' u' : ℕ) (hu : u ≤ w) (hvv : v < v') : v * w + u ≤ v' * w + u' := by
  have h1 : v * w + u ≤ (v + 1) * w := by
    rw [add_mul, one_mul]
    exact Nat.add_le_add_left hu _
  have h2 : (v + 1) * w ≤ v' * w := Nat.mul_le_mul_right _ hvv
  exact le_trans h1 (le_trans h2 (Nat.le_add_right _ _))

theorem mem_intRange (a b z : ℤ) : z ∈ intRange a b ↔ a ≤ z ∧ z < b := by
  unfold intRange
  simp only [List.mem_map, List.mem_range]
  constructor
  · rintro ⟨i, hi, rfl⟩
    omega
  · intro h
    exact ⟨(z - a).toNat, by omega, by omega⟩

/-! ### Pixel-level characterization of the fill operations -/

theorem fill_row_getPx (c : Canvas) (hlen : c.data.length = c.w * c.h * 4)
    (y x0 x1 : ℤ) (r g b a : ℕ) (u v : ℕ) (hu : u < c.w) (hv : v < c.h) :
    (c.fill_row y x0 x1 r g b a).getPx u v =
      if (v : ℤ) = y ∧ max 0 x0 ≤ (u : ℤ) ∧ (u : ℤ) < min (c.w : ℤ) x1
      then [r, g, b, a] else c.getPx u v := by
  unfold Canvas.fill_row
  split
  case isTrue hyr =>
    rw [if_neg (by rintro ⟨hvy, -, -⟩; omega)]
  case isFalse hyr =>
    simp only []
    split
    case isTrue hempty =>
      rw [if_neg (by rintro ⟨-, h3, h4⟩; omega)]
    case isFalse hempty =>
      have hy0 : 0 ≤ y ∧ y < (c.h : ℤ) := by omega
      have hx01 : 0 ≤ max 0 x0 ∧ max 0 x0 < min (c.w : ℤ) x1 ∧ min (c.w : ℤ) x1 ≤ c.w := by omega
      -- ℕ versions of the clamped bounds and row index
      have hY : (y.toNat : ℤ) = y := Int.toNat_of_nonneg hy0.1
      have hX0 : ((max 0 x0).toNat : ℤ) = max 0 x0 := Int.toNat_of_nonneg hx01.1
      have hn : (min (c.w : ℤ) x1 - max 0 x0).toNat
          = (min (c.w : ℤ) x1).toNat - (max 0 x0).toNat := by omega
      have hX1w : (min (c.w : ℤ) x1).toNat ≤ c.w := by omega
      have hX01 : (max 0 x0).toNat < (min (c.w : ℤ) x1).toNat := by omega
      have hYh : y.toNat < c.h := by omega
      -- the written window is inside the buffer
      have hbound : (y.toNat * c.w + (max 0 x0).toNat) * 4
          + (segBytes r g b a (min (c.w : ℤ) x1 - max 0 x0).toNat).length ≤ c.data.length := by
        rw [segBytes_length, hlen, hn]
        have h3 : (y.toNat + 1) * c.w = y.toNat * c.w + c.w := by ring
        have h4 : (y.toNat + 1) * c.w ≤ c.h * c.w := Nat.mul_le_mul_right _ (by omega)
        have h5 : c.h * c.w = c.w * c.h := Nat.mul_comm _ _
        omega
      by_cases hcond : (v : ℤ) = y ∧ max 0 x0 ≤ (u : ℤ) ∧ (u : ℤ) < min (c.w : ℤ) x1
      · rw [if_pos hcond]
        have hvY : v = y.toNat := by omega
        have key : ∀ k, k < 4 →
            (writeBytes c.data ((y.toNat * c.w + (max 0 x0).toNat) * 4)
              (segBytes r g b a (min (c.w : ℤ) x1 - max 0 x0).toNat)).getD
                ((v * c.w + u) * 4 + k) 0 = [r, g, b, a].getD k 0 := by
          intro k hk
          rw [writeBytes_getD _ _ _ _ hbound, if_pos (by rw [segBytes_length, hn]; subst hvY; omega)]
          rw [segBytes_getD _ _ _ _ _ _ (by rw [hn]; subst hvY; omega)]
          congr 1
          subst hvY
          omega
        have k0 := key 0 (by omega)
        have k1 := key 1 (by omega)
        have k2 := key 2 (by omega)
        have k3 := key 3 (by omega)
        rw [Nat.add_zero] at k0
        simp only [Canvas.getPx]
        rw [k0, k1, k2, k3]
        rfl
      · rw [if_neg hcond]
        have key : ∀ k, k < 4 →
            (writeBytes c.data ((y.toNat * c.w + (max 0 x0).toNat) * 4)
              (segBytes r g b a (min (c.w : ℤ) x1 - max 0 x0).toNat)).getD
                ((v * c.w + u) * 4 + k) 0 = c.data.getD ((v * c.w + u) * 4 + k) 0 := by
          intro k hk
          rw [writeBytes_getD _ _ _ _ hbound, if_neg]
          rw [segBytes_length, hn]
          rcases Nat.lt_trichotomy v y.toNat with hvy | hvy | hvy
          · -- pixel row strictly before the written row
            have := row_sep c.w v u y.toNat (max 0 x0).toNat hu hvy
            omega
          · -- same row: the column is outside the clamped range
            subst hvy
            omega
          · -- pixel row strictly after the written row
            have := row_sep_le c.w y.toNat (min (c.w : ℤ) x1).toNat v u hX1w hvy
            omega
        have k0 := key 0 (by omega)
        have k1 := key 1 (by omega)
        have k2 := key 2 (by omega)
        have k3 := key 3 (by omega)
        rw [Nat.add_zero] at k0
        simp only [Canvas.getPx]
        rw [k0, k1, k2, k3]

theorem foldl_fill_row_getPx (ys : List ℤ) :
    ∀ (c : Canvas), c.data.length = c.w * c.h * 4 →
      ∀ (x0 x1 : ℤ) (r g b a : ℕ) (u v : ℕ), u < c.w → v < c.h →
        (ys.foldl (fun acc y => acc.fill_row y x0 x1 r g b a) c).getPx u v =
          if (v : ℤ) ∈ ys ∧ max 0 x0 ≤ (u : ℤ) ∧ (u : ℤ) < min (c.w : ℤ) x1
          then [r, g, b, a] else c.getPx u v := by
  induction ys with
  | nil =>
    intro c _ x0 x1 r g b a u v _ _
    rw [List.foldl_nil, if_neg (by rintro ⟨h, -⟩; exact (List.not_mem_nil _) h)]
  | cons y rest ih =>
    intro c hlen x0 x1 r g b a u v hu hv
    rw [List.foldl_cons]
    obtain ⟨hw1, hh1, hl1⟩ := fill_row_dims c y x0 x1 r g b a
    rw [ih (c.fill_row y x0 x1 r g b a) (by rw [hl1, hw1, hh1]; exact hlen)
      x0 x1 r g b a u v (by rw [hw1]; exact hu) (by rw [hh1]; exact hv)]
    rw [fill_row_getPx c hlen y x0 x1 r g b a u v hu hv, hw1]
    by_cases hcols : max 0 x0 ≤ (u : ℤ) ∧ (u : ℤ) < min (c.w : ℤ) x1
    · by_cases hrest : (v : ℤ) ∈ rest
      · rw [if_pos ⟨hrest, hcols⟩, if_pos ⟨List.mem_cons_of_mem _ hrest, hcols⟩]
      · rw [if_neg (by tauto)]
        by_cases hy : (v : ℤ) = y
        · rw [if_pos ⟨hy, hcols⟩, if_pos ⟨by rw [hy]; exact List.mem_cons_self _ _, hcols⟩]
        · rw [if_neg (by tauto), if_neg (by rw [List.mem_cons]; tauto)]
    · rw [if_neg (by tauto), if_neg (by tauto), if_neg (by tauto)]

/-- C9: a `Canvas` is constructed with a buffer of length `w * h * 4`, and
    `set`, `fill_row`, `fill_rect`, `blend` and `blend_row` all preserve the
    buffer length. -/
theorem C9_buffer_length_invariant (w h : ℕ) (c : Canvas) (x y ya x0 y0 x1 y1 : ℤ)
    (r g b a : ℕ) (az : ℤ) :
    (Canvas.init w h).data.length = w * h * 4
    ∧ (c.set x y r g b a).data.length = c.data.length
    ∧ (c.fill_row ya x0 x1 r g b a).data.length = c.data.length
    ∧ (c.fill_rect x0 y0 x1 y1 r g b a).data.length = c.data.length
    ∧ (c.blend x y r g b az).data.length = c.data.length
    ∧ (c.blend_row ya x0 x1 r g b az).data.length = c.data.length :=
  ⟨by simp [Canvas.init], (set_dims c x y r g b a).2.2, (fill_row_dims c ya x0 x1 r g b a).2.2,
    (fill_rect_dims c x0 y0 x1 y1 r g b a).2.2, (blend_dims c x y r g b az).2.2,
    (blend_row_dims c ya x0 x1 r g b az).2.2⟩

/-- C5: `set` and `blend` at out-of-bounds coordinates, and `fill_row` on an
    out-of-bounds scanline or with an empty clamped column range, leave the
    buffer byte-for-byte unchanged (and, being total functions, raise nothing). -/
theorem C5_out_of_bounds_noop (c : Canvas) (x y yr x0 x1 : ℤ) (r g b a : ℕ) (az : ℤ)
    (hxy : ¬(0 ≤ x ∧ x < (c.w : ℤ) ∧ 0 ≤ y ∧ y < (c.h : ℤ)))
    (hrow : yr < 0 ∨ (c.h : ℤ) ≤ yr ∨ min (c.w : ℤ) x1 ≤ max 0 x0) :
    (c.set x y r g b a).data = c.data
    ∧ (c.fill_row yr x0 x1 r g b a).data = c.data
    ∧ (c.blend x y r g b az).data = c.data := by
  refine ⟨?_, ?_, ?_⟩
  · unfold Canvas.set
    rw [if_neg hxy]
  · unfold Canvas.fill_row
    rcases hrow with h | h | h
    · rw [if_pos (Or.inl h)]
    · rw [if_pos (Or.inr h)]
    · split
      · rfl
      · simp only []
        rw [if_pos h]
  · unfold Canvas.blend
    rw [if_pos (Or.inr hxy)]

/-- Witness for C5 at a concrete canvas and concrete out-of-bounds inputs. -/
theorem C5_out_of_bounds_noop_witness :
    ((Canvas.init 2 2).set (-1) 0 1 2 3 4).data = (Canvas.init 2 2).data
    ∧ ((Canvas.init 2 2).fill_row 5 0 2 1 2 3 4).data = (Canvas.init 2 2).data
    ∧ ((Canvas.init 2 2).blend (-1) 0 1 2 3 10).data = (Canvas.init 2 2).data :=
  C5_out_of_bounds_noop (Canvas.init 2 2) (-1) 0 5 0 2 1 2 3 4 10
    (by decide) (by decide)

/-- C6: `fill_row` overwrites exactly the clamped column range of its scanline
    with the given bytes (no blending) and leaves every other pixel unchanged;
    `fill_rect` does the same on every scanline of the clamped row range. -/
theorem C6_fill_overwrite (c : Canvas) (hlen : c.data.length = c.w * c.h * 4)
    (y x0 x1 y0 y1 : ℤ) (r g b a : ℕ)
    (u v : ℕ) (hu : u < c.w) (hv : v < c.h) :
    ((c.fill_row y x0 x1 r g b a).getPx u v =
      if (v : ℤ) = y ∧ max 0 x0 ≤ (u : ℤ) ∧ (u : ℤ) < min (c.w : ℤ) x1
      then [r, g, b, a] else c.getPx u v)
    ∧ ((c.fill_rect x0 y0 x1 y1 r g b a).getPx u v =
      if (max 0 y0 ≤ (v : ℤ) ∧ (v : ℤ) < min (c.h : ℤ) y1)
          ∧ max 0 x0 ≤ (u : ℤ) ∧ (u : ℤ) < min (c.w : ℤ) x1
      then [r, g, b, a] else c.getPx u v) := by
  refine ⟨fill_row_getPx c hlen y x0 x1 r g b a u v hu hv, ?_⟩
  unfold Canvas.fill_rect
  rw [foldl_fill_row_getPx _ c hlen x0 x1 r g b a u v hu hv]
  simp only [mem_intRange]

/-- Witness for C6 at a concrete canvas, scanline and rectangle. -/
theorem C6_fill_overwrite_witness :
    (((Canvas.init 2 2).fill_row 0 0 2 9 8 7 6).getPx 0 0 =
      if ((0 : ℕ) : ℤ) = 0 ∧ max 0 0 ≤ ((0 : ℕ) : ℤ) ∧ ((0 : ℕ) : ℤ) < min ((Canvas.init 2 2).w : ℤ) 2
      then [9, 8, 7, 6] else (Canvas.init 2 2).getPx 0 0)
    ∧ (((Canvas.init 2 2).fill_rect 0 0 2 2 9 8 7 6).getPx 0 0 =
      if (max 0 0 ≤ ((0 : ℕ) : ℤ) ∧ ((0 : ℕ) : ℤ) < min ((Canvas.init 2 2).h : ℤ) 2)
          ∧ max 0 0 ≤ ((0 : ℕ) : ℤ) ∧ ((0 : ℕ) : ℤ) < min ((Canvas.init 2 2).w : ℤ) 2
      then [9, 8, 7, 6] else (Canvas.init 2 2).getPx 0 0) :=
  C6_fill_overwrite (Canvas.init 2 2) (by decide) 0 0 2 0 2 9 8 7 6 0 0
    (by decide) (by decide)

/-! ### Characterization of `blend` over the naturals -/

theorem oa_pos (d3 a : ℕ) (ha1 : 1 ≤ a) (ha2 : a ≤ 255) :
    (0 : ℚ) < (a : ℚ) / 255 + (d3 : ℚ) / 255 * (1 - (a : ℚ) / 255) := by
  have h2 : (a : ℚ) ≤ 255 := by exact_mod_cast ha2
  have h4 : (0 : ℚ) ≤ (d3 : ℚ) / 255 * (1 - (a : ℚ) / 255) := by
    apply mul_nonneg (by positivity)
    rw [sub_nonneg, div_le_one (by norm_num)]
    linarith
  have h1 : (0 : ℚ) < (a : ℚ) := by exact_mod_cast ha1
  have h5 : (0 : ℚ) < (a : ℚ) / 255 := by positivity
  linarith

theorem den_cast_pos (d3 a : ℕ) (ha1 : 1 ≤ a) :
    (0 : ℚ) < ((255 * a + d3 * (255 - a) : ℕ) : ℚ) := by
  have h1 : 0 < 255 * a := Nat.mul_pos (by norm_num) ha1
  have h2 : 0 < 255 * a + d3 * (255 - a) := by omega
  exact_mod_cast h2

theorem blend_channel_eq (ch d d3 a : ℕ) (ha1 : 1 ≤ a) (ha2 : a ≤ 255) :
    clampByte (pyInt (((ch : ℚ) * ((a : ℚ) / 255) + (d : ℚ) * ((d3 : ℚ) / 255) * (1 - (a : ℚ) / 255)) *
      (1 / ((a : ℚ) / 255 + (d3 : ℚ) / 255 * (1 - (a : ℚ) / 255))))) =
    min 255 ((255 * ch * a + d * d3 * (255 - a)) / (255 * a + d3 * (255 - a))) := by
  have hcast : ((255 - a : ℕ) : ℚ) = 255 - (a : ℚ) := by
    rw [Nat.cast_sub ha2]
    norm_num
  have key : (((ch : ℚ) * ((a : ℚ) / 255) + (d : ℚ) * ((d3 : ℚ) / 255) * (1 - (a : ℚ) / 255)) *
      (1 / ((a : ℚ) / 255 + (d3 : ℚ) / 255 * (1 - (a : ℚ) / 255)))) =
      ((255 * ch * a + d * d3 * (255 - a) : ℕ) : ℚ) / ((255 * a + d3 * (255 - a) : ℕ) : ℚ) := by
    rw [mul_one_div, div_eq_div_iff (oa_pos d3 a ha1 ha2).ne' (den_cast_pos d3 a ha1).ne']
    push_cast [hcast]
    ring
  rw [key, pyInt_natCast_div, clampByte_natCast]

theorem blend_alpha_eq (d3 a : ℕ) (_ha1 : 1 ≤ a) (ha2 : a ≤ 255) :
    clampByte (pyInt (((a : ℚ) / 255 + (d3 : ℚ) / 255 * (1 - (a : ℚ) / 255)) * 255)) =
    min 255 ((255 * a + d3 * (255 - a)) / 255) := by
  have hcast : ((255 - a : ℕ) : ℚ) = 255 - (a : ℚ) := by
    rw [Nat.cast_sub ha2]
    norm_num
  have key : ((a : ℚ) / 255 + (d3 : ℚ) / 255 * (1 - (a : ℚ) / 255)) * 255 =
      ((255 * a + d3 * (255 - a) : ℕ) : ℚ) / ((255 : ℕ) : ℚ) := by
    rw [eq_div_iff (by norm_num : ((255 : ℕ) : ℚ) ≠ 0)]
    push_cast [hcast]
    ring
  rw [key, pyInt_natCast_div, clampByte_natCast]

theorem set4_getD (l : List ℕ) (i v0 v1 v2 v3 : ℕ) (h : i + 4 ≤ l.length) :
    ((((l.set i v0).set (i + 1) v1).set (i + 2) v2).set (i + 3) v3).getD i 0 = v0
    ∧ ((((l.set i v0).set (i + 1) v1).set (i + 2) v2).set (i + 3) v3).getD (i + 1) 0 = v1
    ∧ ((((l.set i v0).set (i + 1) v1).set (i + 2) v2).set (i + 3) v3).getD (i + 2) 0 = v2
    ∧ ((((l.set i v0).set (i + 1) v1).set (i + 2) v2).set (i + 3) v3).getD (i + 3) 0 = v3 := by
  refine ⟨?_, ?_, ?_, ?_⟩
  · rw [getD_set, if_neg (by rintro ⟨h1, -⟩; omega), getD_set, if_neg (by rintro ⟨h1, -⟩; omega),
      getD_set, if_neg (by rintro ⟨h1, -⟩; omega), getD_set,
      if_pos ⟨rfl, by omega⟩]
  · rw [getD_set, if_neg (by rintro ⟨h1, -⟩; omega), getD_set, if_neg (by rintro ⟨h1, -⟩; omega),
      getD_set, if_pos ⟨rfl, by simp only [List.length_set]; omega⟩]
  · rw [getD_set, if_neg (by rintro ⟨h1, -⟩; omega),
      getD_set, if_pos ⟨rfl, by simp only [List.length_set]; omega⟩]
  · rw [getD_set, if_pos ⟨rfl, by simp only [List.length_set]; omega⟩]

theorem blend_char (c : Canvas) (x y : ℕ) (hx : x < c.w) (hy : y < c.h)
    (r g b a : ℕ) (ha1 : 1 ≤ a) (ha2 : a ≤ 255) :
    c.blend (x : ℤ) (y : ℤ) r g b (a : ℤ) =
      ⟨c.w, c.h,
        (((c.data.set ((y * c.w + x) * 4)
            (min 255 ((255 * r * a + c.data.getD ((y * c.w + x) * 4) 0 *
                c.data.getD ((y * c.w + x) * 4 + 3) 0 * (255 - a)) /
              (255 * a + c.data.getD ((y * c.w + x) * 4 + 3) 0 * (255 - a))))).set
          ((y * c.w + x) * 4 + 1)
            (min 255 ((255 * g * a + c.data.getD ((y * c.w + x) * 4 + 1) 0 *
                c.data.getD ((y * c.w + x) * 4 + 3) 0 * (255 - a)) /
              (255 * a + c.data.getD ((y * c.w + x) * 4 + 3) 0 * (255 - a))))).set
          ((y * c.w + x) * 4 + 2)
            (min 255 ((255 * b * a + c.data.getD ((y * c.w + x) * 4 + 2) 0 *
                c.data.getD ((y * c.w + x) * 4 + 3) 0 * (255 - a)) /
              (255 * a + c.data.getD ((y * c.w + x) * 4 + 3) 0 * (255 - a))))).set
          ((y * c.w + x) * 4 + 3)
            (min 255 ((255 * a + c.data.getD ((y * c.w + x) * 4 + 3) 0 * (255 - a)) / 255))⟩ := by
  unfold Canvas.blend
  rw [if_neg (by omega)]
  simp only [Int.toNat_natCast]
  split
  case isTrue hoa =>
    congr 1
    congr 1
    · congr 1
      · congr 1
        · congr 1
          · exact blend_channel_eq r (c.data.getD ((y * c.w + x) * 4) 0)
              (c.data.getD ((y * c.w + x) * 4 + 3) 0) a ha1 ha2
        · exact blend_channel_eq g (c.data.getD ((y * c.w + x) * 4 + 1) 0)
            (c.data.getD ((y * c.w + x) * 4 + 3) 0) a ha1 ha2
      · exact blend_channel_eq b (c.data.getD ((y * c.w + x) * 4 + 2) 0)
          (c.data.getD ((y * c.w + x) * 4 + 3) 0) a ha1 ha2
    · exact blend_alpha_eq (c.data.getD ((y * c.w + x) * 4 + 3) 0) a ha1 ha2
  case isFalse hoa =>
    exact absurd (oa_pos (c.data.getD ((y * c.w + x) * 4 + 3) 0) a ha1 ha2) hoa

theorem blend_char_data (c : Canvas) (x y : ℕ) (hx : x < c.w) (hy : y < c.h)
    (r g b a : ℕ) (ha1 : 1 ≤ a) (ha2 : a ≤ 255) :
    (c.blend (x : ℤ) (y : ℤ) r g b (a : ℤ)).data =
      (((c.data.set ((y * c.w + x) * 4)
          (min 255 ((255 * r * a + c.data.getD ((y * c.w + x) * 4) 0 *
              c.data.getD ((y * c.w + x) * 4 + 3) 0 * (255 - a)) /
            (255 * a + c.data.getD ((y * c.w + x) * 4 + 3) 0 * (255 - a))))).set
        ((y * c.w + x) * 4 + 1)
          (min 255 ((255 * g * a + c.data.getD ((y * c.w + x) * 4 + 1) 0 *
              c.data.getD ((y * c.w + x) * 4 + 3) 0 * (255 - a)) /
            (255 * a + c.data.getD ((y * c.w + x) * 4 + 3) 0 * (255 - a))))).set
        ((y * c.w + x) * 4 + 2)
          (min 255 ((255 * b * a + c.data.getD ((y * c.w + x) * 4 + 2) 0 *
              c.data.getD ((y * c.w + x) * 4 + 3) 0 * (255 - a)) /
            (255 * a + c.data.getD ((y * c.w + x) * 4 + 3) 0 * (255 - a))))).set
        ((y * c.w + x) * 4 + 3)
          (min 255 ((255 * a + c.data.getD ((y * c.w + x) * 4 + 3) 0 * (255 - a)) / 255)) := by
  rw [blend_char c x y hx hy r g b a ha1 ha2]

/-- The pixel update that claim C3 describes for `blend`, written over a single
    4-byte destination pixel: the "over" formula with each stored byte ROUNDED
    to the nearest integer and clamped.  (The code truncates via `int()`
    instead of rounding; this definition follows the claim's wording and is
    compared against the code's behaviour.) -/
def blendSpecRounded (dst : List ℕ) (r g b a : ℕ) : List ℕ :=
  let sa : ℚ := (a : ℚ) / 255
  let da : ℚ := (dst.getD 3 0 : ℚ) / 255
  let oa : ℚ := sa + da * (1 - sa)
  [clampByte (round (((r : ℚ) * sa + (dst.getD 0 0 : ℚ) * da * (1 - sa)) / oa)),
   clampByte (round (((g : ℚ) * sa + (dst.getD 1 0 : ℚ) * da * (1 - sa)) / oa)),
   clampByte (round (((b : ℚ) * sa + (dst.getD 2 0 : ℚ) * da * (1 - sa)) / oa)),
   clampByte (round (oa * 255))]

/-- C3 as stated is false: blending source `(1, 0, 0)` at alpha 128 over the
    opaque black pixel `(0, 0, 0, 255)` stores red byte 0 (truncation of
    128/255), while the claimed formula with rounding gives red byte 1. -/
theorem C3_blend_round_counterexample :
    ((⟨1, 1, [0, 0, 0, 255]⟩ : Canvas).blend ((0 : ℕ) : ℤ) ((0 : ℕ) : ℤ) 1 0 0 ((128 : ℕ) : ℤ)).getPx 0 0 ≠
      blendSpecRounded [0, 0, 0, 255] 1 0 0 128 := by
  have hL : ((⟨1, 1, [0, 0, 0, 255]⟩ : Canvas).blend ((0 : ℕ) : ℤ) ((0 : ℕ) : ℤ) 1 0 0 ((128 : ℕ) : ℤ))
      = ⟨1, 1, [0, 0, 0, 255]⟩ := by
    rw [blend_char ⟨1, 1, [0, 0, 0, 255]⟩ 0 0 (by decide) (by decide) 1 0 0 128
      (by decide) (by decide)]
    decide
  have hR : blendSpecRounded [0, 0, 0, 255] 1 0 0 128 = [1, 0, 0, 255] := by
    have h3 : (([0, 0, 0, 255] : List ℕ).getD 3 0 : ℚ) = 255 := by norm_num
    have h0 : (([0, 0, 0, 255] : List ℕ).getD 0 0 : ℚ) = 0 := by norm_num
    have h1 : (([0, 0, 0, 255] : List ℕ).getD 1 0 : ℚ) = 0 := by norm_num
    have h2 : (([0, 0, 0, 255] : List ℕ).getD 2 0 : ℚ) = 0 := by norm_num
    have er : round ((128 : ℚ) / 255) = 1 := by
      rw [round_eq]
      exact Int.floor_eq_iff.mpr ⟨by norm_num, by norm_num⟩
    have e255 : round ((255 : ℚ)) = 255 := by
      rw [round_eq]
      exact Int.floor_eq_iff.mpr ⟨by norm_num, by norm_num⟩
    simp only [blendSpecRounded]
    rw [h3, h0, h1, h2]
    push_cast
    norm_num [er, e255, clampByte]
    decide
  rw [hL, hR]
  decide

/-- The "over" formula of claim C3 amended to truncation: channels normalized
    by the output alpha and the output alpha itself, each truncated toward zero
    (Python `int()`) and clamped to a byte. -/
def blendTruncFormula (c : Canvas) (x y r g b a : ℕ) : List ℕ :=
  let i := (y * c.w + x) * 4
  let sa : ℚ := (a : ℚ) / 255
  let da : ℚ := (c.data.getD (i + 3) 0 : ℚ) / 255
  let oa : ℚ := sa + da * (1 - sa)
  [clampByte (pyInt (((r : ℚ) * sa + (c.data.getD i 0 : ℚ) * da * (1 - sa)) / oa)),
   clampByte (pyInt (((g : ℚ) * sa + (c.data.getD (i + 1) 0 : ℚ) * da * (1 - sa)) / oa)),
   clampByte (pyInt (((b : ℚ) * sa + (c.data.getD (i + 2) 0 : ℚ) * da * (1 - sa)) / oa)),
   clampByte (pyInt (oa * 255))]

/-- C3, amended: for every in-bounds pixel and source alpha 1..255, `blend`
    stores the "over"-composited channels normalized by the output alpha, and
    the output alpha, each TRUNCATED toward zero (Python `int()`) and clamped
    to a byte — truncation, not rounding as the claim states. -/
theorem C3_blend_formula_trunc (c : Canvas) (x y : ℕ) (hx : x < c.w) (hy : y < c.h)
    (r g b a : ℕ) (ha1 : 1 ≤ a) (ha2 : a ≤ 255)
    (hlen : c.data.length = c.w * c.h * 4) :
    (c.blend (x : ℤ) (y : ℤ) r g b (a : ℤ)).getPx x y = blendTruncFormula c x y r g b a := by
  unfold Canvas.blend
  rw [if_neg (by omega)]
  simp only [Int.toNat_natCast, Int.cast_natCast]
  split
  case isTrue hoa =>
    simp only [Canvas.getPx]
    have hpx := px_lt c.w c.h y x hx hy
    have hb4 : (y * c.w + x) * 4 + 4 ≤ c.data.length := by
      rw [hlen]
      omega
    obtain ⟨s0, s1, s2, s3⟩ := set4_getD c.data ((y * c.w + x) * 4) _ _ _ _ hb4
    rw [s0, s1, s2, s3]
    simp only [blendTruncFormula, mul_one_div]
  case isFalse hoa =>
    exact absurd (oa_pos (c.data.getD ((y * c.w + x) * 4 + 3) 0) a ha1 ha2) hoa

/-- Witness for the amended C3 at a concrete pixel. -/
theorem C3_blend_formula_trunc_witness :
    ((⟨1, 1, [10, 20, 30, 40]⟩ : Canvas).blend ((0 : ℕ) : ℤ) ((0 : ℕ) : ℤ) 5 6 7 ((128 : ℕ) : ℤ)).getPx 0 0 =
      blendTruncFormula ⟨1, 1, [10, 20, 30, 40]⟩ 0 0 5 6 7 128 :=
  C3_blend_formula_trunc ⟨1, 1, [10, 20, 30, 40]⟩ 0 0 (by decide) (by decide) 5 6 7 128
    (by decide) (by decide) (by decide)

theorem full_alpha_channel (ch d d3 : ℕ) (hch : ch ≤ 255) :
    min 255 ((255 * ch * 255 + d * d3 * (255 - 255)) / (255 * 255 + d3 * (255 - 255))) = ch := by
  simp only [Nat.sub_self, Nat.mul_zero, Nat.add_zero]
  rw [show 255 * ch * 255 = 255 * 255 * ch by ring, Nat.mul_div_cancel_left ch (by norm_num)]
  omega

theorem full_alpha_alpha (d3 : ℕ) :
    min 255 ((255 * 255 + d3 * (255 - 255)) / 255) = 255 := by
  simp only [Nat.sub_self, Nat.mul_zero, Nat.add_zero]
  decide

/-- C4: `blend` with non-positive alpha never changes the destination buffer,
    and `blend` with alpha 255 makes the pixel exactly the source color with
    full alpha, regardless of the prior pixel value. -/
theorem C4_blend_alpha_extremes (c : Canvas) (hlen : c.data.length = c.w * c.h * 4)
    (x y : ℕ) (hx : x < c.w) (hy : y < c.h) (r g b : ℕ)
    (hr : r ≤ 255) (hg : g ≤ 255) (hb : b ≤ 255) (az : ℤ) (haz : az ≤ 0) :
    (c.blend (x : ℤ) (y : ℤ) r g b az).data = c.data
    ∧ (c.blend (x : ℤ) (y : ℤ) r g b 255).getPx x y = [r, g, b, 255] := by
  constructor
  · unfold Canvas.blend
    rw [if_pos (Or.inl haz)]
  · have e := blend_char_data c x y hx hy r g b 255 (by norm_num) (le_refl 255)
    rw [Nat.cast_ofNat] at e
    have hw := (blend_dims c (x : ℤ) (y : ℤ) r g b 255).1
    simp only [Canvas.getPx]
    rw [hw, e]
    have hpx := px_lt c.w c.h y x hx hy
    have hb4 : (y * c.w + x) * 4 + 4 ≤ c.data.length := by
      rw [hlen]
      omega
    obtain ⟨s0, s1, s2, s3⟩ := set4_getD c.data ((y * c.w + x) * 4) _ _ _ _ hb4
    rw [s0, s1, s2, s3, full_alpha_channel r _ _ hr, full_alpha_channel g _ _ hg,
      full_alpha_channel b _ _ hb, full_alpha_alpha]

/-- Witness for C4 at a concrete canvas and pixel. -/
theorem C4_blend_alpha_extremes_witness :
    ((Canvas.init 1 1).blend ((0 : ℕ) : ℤ) ((0 : ℕ) : ℤ) 9 8 7 (-3)).data = (Canvas.init 1 1).data
    ∧ ((Canvas.init 1 1).blend ((0 : ℕ) : ℤ) ((0 : ℕ) : ℤ) 9 8 7 255).getPx 0 0 = [9, 8, 7, 255] :=
  C4_blend_alpha_extremes (Canvas.init 1 1) (by decide) 0 0 (by decide) (by decide) 9 8 7
    (by decide) (by decide) (by decide) (-3) (by decide)

/-- C8: alpha compositing is not additive in alpha — blending the same color
    twice with alphas 100 and 100 differs from one blend with alpha 200. -/
theorem C8_blend_not_additive :
    ∃ (c : Canvas) (r g b a1 a2 : ℕ), a1 + a2 ≤ 255 ∧
      ((c.blend ((0 : ℕ) : ℤ) ((0 : ℕ) : ℤ) r g b (a1 : ℤ)).blend
          ((0 : ℕ) : ℤ) ((0 : ℕ) : ℤ) r g b (a2 : ℤ)).data ≠
        (c.blend ((0 : ℕ) : ℤ) ((0 : ℕ) : ℤ) r g b ((a1 + a2 : ℕ) : ℤ)).data := by
  refine ⟨⟨1, 1, [0, 0, 0, 0]⟩, 255, 0, 0, 100, 100, by norm_num, ?_⟩
  have e1 : (⟨1, 1, [0, 0, 0, 0]⟩ : Canvas).blend ((0 : ℕ) : ℤ) ((0 : ℕ) : ℤ) 255 0 0 ((100 : ℕ) : ℤ)
      = ⟨1, 1, [255, 0, 0, 100]⟩ := by
    rw [blend_char ⟨1, 1, [0, 0, 0, 0]⟩ 0 0 (by decide) (by decide) 255 0 0 100
      (by decide) (by decide)]
    decide
  have e2 : (⟨1, 1, [255, 0, 0, 100]⟩ : Canvas).blend ((0 : ℕ) : ℤ) ((0 : ℕ) : ℤ) 255 0 0 ((100 : ℕ) : ℤ)
      = ⟨1, 1, [255, 0, 0, 160]⟩ := by
    rw [blend_char ⟨1, 1, [255, 0, 0, 100]⟩ 0 0 (by decide) (by decide) 255 0 0 100
      (by decide) (by decide)]
    decide
  have e3 : (⟨1, 1, [0, 0, 0, 0]⟩ : Canvas).blend ((0 : ℕ) : ℤ) ((0 : ℕ) : ℤ) 255 0 0 ((100 + 100 : ℕ) : ℤ)
      = ⟨1, 1, [255, 0, 0, 200]⟩ := by
    rw [blend_char ⟨1, 1, [0, 0, 0, 0]⟩ 0 0 (by decide) (by decide) 255 0 0 (100 + 100)
      (by decide) (by decide)]
    decide
  rw [e1, e2, e3]
  decide

/-- C10: the destination alpha byte never decreases under `blend` (for a
    byte-valued buffer and source alpha 0..255). -/
theorem C10_blend_alpha_monotone (c : Canvas) (hlen : c.data.length = c.w * c.h * 4)
    (x y : ℕ) (hx : x < c.w) (hy : y < c.h) (r g b a : ℕ) (ha : a ≤ 255)
    (hd3 : c.data.getD ((y * c.w + x) * 4 + 3) 0 ≤ 255) :
    c.data.getD ((y * c.w + x) * 4 + 3) 0 ≤
      (c.blend (x : ℤ) (y : ℤ) r g b (a : ℤ)).data.getD ((y * c.w + x) * 4 + 3) 0 := by
  rcases Nat.eq_zero_or_pos a with ha0 | ha1
  · subst ha0
    unfold Canvas.blend
    rw [if_pos (Or.inl (by simp))]
  · rw [blend_char_data c x y hx hy r g b a ha1 ha]
    have hpx := px_lt c.w c.h y x hx hy
    have hb4 : (y * c.w + x) * 4 + 4 ≤ c.data.length := by
      rw [hlen]
      omega
    obtain ⟨-, -, -, s3⟩ := set4_getD c.data ((y * c.w + x) * 4) _ _ _ _ hb4
    rw [s3]
    have e1 : c.data.getD ((y * c.w + x) * 4 + 3) 0 * 255
        = c.data.getD ((y * c.w + x) * 4 + 3) 0 * (255 - a)
          + c.data.getD ((y * c.w + x) * 4 + 3) 0 * a := by
      rw [← Nat.mul_add]
      congr 1
      omega
    have e2 : c.data.getD ((y * c.w + x) * 4 + 3) 0 * a ≤ 255 * a :=
      Nat.mul_le_mul_right a hd3
    have h1 : c.data.getD ((y * c.w + x) * 4 + 3) 0 * 255
        ≤ 255 * a + c.data.getD ((y * c.w + x) * 4 + 3) 0 * (255 - a) := by
      omega
    have h2 := (Nat.le_div_iff_mul_le (by norm_num : 0 < 255)).mpr h1
    omega

/-- Witness for C10 at a concrete pixel. -/
theorem C10_blend_alpha_monotone_witness :
    (40 : ℕ) ≤ ((⟨1, 1, [1, 2, 3, 40]⟩ : Canvas).blend ((0 : ℕ) : ℤ) ((0 : ℕ) : ℤ)
      9 9 9 ((100 : ℕ) : ℤ)).data.getD 3 0 :=
  C10_blend_alpha_monotone ⟨1, 1, [1, 2, 3, 40]⟩ (by decide) 0 0 (by decide) (by decide)
    9 9 9 100 (by decide) (by decide)

/-- C7: the procedural generators are deterministic — on canvases with equal
    dimensions and equal initial buffers, `draw_stars` and `draw_buildings`
    (at any loop bound) produce bit-identical buffers, and the underlying LCG
    advances by `state' = (state * 1664525 + 1013904223) mod 2^32`. -/
theorem C7_generator_determinism (c1 c2 : Canvas) (sky_h seed : ℕ)
    (sky_top ground_y : ℤ) (bseed fuel : ℕ)
    (hw : c1.w = c2.w) (hh : c1.h = c2.h) (hd : c1.data = c2.data) :
    (draw_stars c1 sky_h seed).data = (draw_stars c2 sky_h seed).data
    ∧ (draw_buildings fuel c1 sky_top ground_y bseed).data
        = (draw_buildings fuel c2 sky_top ground_y bseed).data
    ∧ ∀ g : LCG, (g.next.2).state = (g.state * 1664525 + 1013904223) % 2 ^ 32 := by
  have hc : c1 = c2 := by
    cases c1
    cases c2
    simp_all
  subst hc
  exact ⟨rfl, rfl, fun g => rfl⟩

/-- Witness for C7: two identical concrete canvases. -/
theorem C7_generator_determinism_witness :
    (draw_stars (Canvas.init 2 2) 2 5).data = (draw_stars (Canvas.init 2 2) 2 5).data
    ∧ (draw_buildings 3 (Canvas.init 2 2) 0 2 7).data
        = (draw_buildings 3 (Canvas.init 2 2) 0 2 7).data
    ∧ ∀ g : LCG, (g.next.2).state = (g.state * 1664525 + 1013904223) % 2 ^ 32 :=
  C7_generator_determinism (Canvas.init 2 2) (Canvas.init 2 2) 2 5 0 2 7 3 rfl rfl rfl

/-! ### Scanline stream structure (C1) -/

theorem foldl_append_acc {α β : Type} (f : α → List β) (l : List α) :
    ∀ acc : List β, l.foldl (fun r z => r ++ f z) acc = acc ++ l.flatMap f := by
  induction l with
  | nil =>
    intro acc
    simp
  | cons z rest ih =>
    intro acc
    rw [List.foldl_cons, ih, List.flatMap_cons, List.append_assoc]

theorem png_raw_eq (c : Canvas) :
    c.png_raw = (List.range c.h).flatMap (fun y => 0 :: c.rowBytes y) := by
  unfold Canvas.png_raw
  rw [foldl_append_acc]
  rw [List.nil_append]

theorem rowBytes_length (c : Canvas) (hlen : c.data.length = c.w * c.h * 4)
    (y : ℕ) (hy : y < c.h) : (c.rowBytes y).length = c.w * 4 := by
  unfold Canvas.rowBytes
  rw [List.length_take, List.length_drop, hlen]
  have h1 : (y + 1) * (c.w * 4) ≤ c.h * (c.w * 4) := Nat.mul_le_mul_right _ (by omega)
  have h2 : (y + 1) * (c.w * 4) = y * (c.w * 4) + c.w * 4 := by ring
  have h3 : c.h * (c.w * 4) = c.w * c.h * 4 := by ring
  have h4 : y * (c.w * 4) = y * c.w * 4 := by ring
  omega

theorem flatMap_range_length (f : ℕ → List ℕ) (L : ℕ) :
    ∀ h, (∀ y, y < h → (f y).length = L) →
      ((List.range h).flatMap f).length = h * L := by
  intro h
  induction h with
  | zero =>
    intro _
    simp
  | succ m ih =>
    intro hf
    rw [List.range_succ, List.flatMap_append, List.length_append,
      ih (fun y hy => hf y (by omega))]
    have h1 : ([m].flatMap f).length = L := by
      simp [hf m (by omega)]
    have h2 : (m + 1) * L = m * L + L := by ring
    omega

theorem flatMap_range_getD (f : ℕ → List ℕ) (L : ℕ) :
    ∀ h, (∀ y, y < h → (f y).length = L) →
      ∀ y j, y < h → j < L →
        ((List.range h).flatMap f).getD (y * L + j) 0 = (f y).getD j 0 := by
  intro h
  induction h with
  | zero =>
    intro _ y j hy _
    omega
  | succ m ih =>
    intro hf y j hy hj
    rw [List.range_succ, List.flatMap_append]
    have hpre : ((List.range m).flatMap f).length = m * L :=
      flatMap_range_length f L m (fun y' hy' => hf y' (by omega))
    by_cases hym : y < m
    · rw [List.getD_append _ _ _ _ (by
        rw [hpre]
        have e1 : (y + 1) * L = y * L + L := by ring
        have e2 : (y + 1) * L ≤ m * L := Nat.mul_le_mul_right _ (by omega)
        omega)]
      exact ih (fun y' hy' => hf y' (by omega)) y j hym hj
    · have hym' : y = m := by omega
      subst hym'
      rw [List.getD_append_right _ _ _ _ (by rw [hpre]; omega), hpre]
      have e3 : y * L + j - y * L = j := by omega
      rw [e3]
      simp

/-- C1: the IDAT payload of the emitted stream is `compress` applied to the
    scanline stream; whenever `decompress` inverts `compress` on it, the
    decompressed payload is exactly `height` rows, each a filter byte 0
    followed by that row's RGBA bytes in buffer order, so every stored pixel
    byte is recovered at its scanline position. -/
theorem C1_idat_roundtrip (c : Canvas) (compress decompress : List ℕ → List ℕ)
    (crc32 : List ℕ → ℕ) (hlen : c.data.length = c.w * c.h * 4)
    (hinv : decompress (compress c.png_raw) = c.png_raw) :
    Canvas.png_stream compress crc32 c
      = pngSignature ++ chunk crc32 typeIHDR (ihdrPayload c.w c.h)
        ++ chunk crc32 typeIDAT (compress c.png_raw) ++ chunk crc32 typeIEND []
    ∧ decompress (compress c.png_raw) = (List.range c.h).flatMap (fun y => 0 :: c.rowBytes y)
    ∧ (decompress (compress c.png_raw)).length = c.h * (1 + c.w * 4)
    ∧ ∀ x y k, x < c.w → y < c.h → k < 4 →
        (decompress (compress c.png_raw)).getD (y * (1 + c.w * 4) + (1 + x * 4 + k)) 0
          = c.data.getD ((y * c.w + x) * 4 + k) 0 := by
  have hrow : ∀ y', y' < c.h → ((fun yy => 0 :: c.rowBytes yy) y').length = 1 + c.w * 4 := by
    intro y' hy'
    rw [List.length_cons, rowBytes_length c hlen y' hy']
    omega
  refine ⟨rfl, ?_, ?_, ?_⟩
  · rw [hinv, png_raw_eq]
  · rw [hinv, png_raw_eq]
    exact flatMap_range_length _ _ _ hrow
  · intro x y k hx hy hk
    rw [hinv, png_raw_eq]
    rw [flatMap_range_getD _ _ _ hrow y (1 + x * 4 + k) hy (by omega)]
    have e1 : 1 + x * 4 + k = (x * 4 + k) + 1 := by omega
    rw [e1, List.getD_cons_succ]
    unfold Canvas.rowBytes
    rw [List.getD_eq_getElem?_getD, List.getElem?_take, if_pos (by omega),
      List.getElem?_drop, ← List.getD_eq_getElem?_getD]
    congr 1
    have e2 : (y * c.w + x) * 4 + k = y * c.w * 4 + (x * 4 + k) := by ring_nf
    omega

/-- Witness for C1: the 1×1 canvas with pixel bytes `[1, 2, 3, 4]` and the
    identity as compressor/decompressor. -/
theorem C1_idat_roundtrip_witness :
    id (id (Canvas.png_raw ⟨1, 1, [1, 2, 3, 4]⟩))
        = (List.range 1).flatMap (fun y => 0 :: Canvas.rowBytes ⟨1, 1, [1, 2, 3, 4]⟩ y)
    ∧ (id (id (Canvas.png_raw ⟨1, 1, [1, 2, 3, 4]⟩))).getD (0 * (1 + 1 * 4) + (1 + 0 * 4 + 1)) 0
        = (⟨1, 1, [1, 2, 3, 4]⟩ : Canvas).data.getD ((0 * 1 + 0) * 4 + 1) 0 :=
  ⟨(C1_idat_roundtrip ⟨1, 1, [1, 2, 3, 4]⟩ id id (fun _ => 0) (by decide) rfl).2.1,
   (C1_idat_roundtrip ⟨1, 1, [1, 2, 3, 4]⟩ id id (fun _ => 0) (by decide) rfl).2.2.2
     0 0 1 (by decide) (by decide) (by decide)⟩

/-! ### Chunk layout (C2) -/

/-- Chunk serialization exactly as claim C2 words it: 4-byte big-endian payload
    length, then the 4-byte ASCII type tag, then the payload, then the 4-byte
    big-endian CRC32 of the tag concatenated with the payload. -/
def serializeChunkSpec (crc32 : List ℕ → ℕ) (tag payload : List ℕ) : List ℕ :=
  packBE32 payload.length ++ tag ++ payload ++ packBE32 (crc32 (tag ++ payload) % 2 ^ 32)

/-- The whole-stream layout of claim C2: the 8 signature bytes, then the IHDR
    chunk with payload big-endian w, big-endian h and bytes 8, 6, 0, 0, 0,
    then a single IDAT chunk with the compressed scanline stream, then an
    empty IEND chunk. -/
def png_layout_spec (compress : List ℕ → List ℕ) (crc32 : List ℕ → ℕ) (c : Canvas) : List ℕ :=
  [0x89, 0x50, 0x4E, 0x47, 0x0D, 0x0A, 0x1A, 0x0A]
    ++ serializeChunkSpec crc32 [0x49, 0x48, 0x44, 0x52]
        (packBE32 c.w ++ packBE32 c.h ++ [8, 6, 0, 0, 0])
    ++ serializeChunkSpec crc32 [0x49, 0x44, 0x41, 0x54] (compress c.png_raw)
    ++ serializeChunkSpec crc32 [0x49, 0x45, 0x4E, 0x44] []

/-- C2: the emitted byte stream is exactly the claimed layout, the IHDR
    payload is 13 bytes, and the 4-byte length/CRC fields are genuine
    big-endian encodings (4 bytes, each a byte value, decoding back to the
    encoded number below 2^32). -/
theorem C2_png_stream_layout (compress : List ℕ → List ℕ) (crc32 : List ℕ → ℕ)
    (c : Canvas) :
    Canvas.png_stream compress crc32 c = png_layout_spec compress crc32 c
    ∧ (ihdrPayload c.w c.h).length = 13
    ∧ (∀ n, (packBE32 n).length = 4 ∧ ∀ bv ∈ packBE32 n, bv < 256)
    ∧ (∀ n, n < 2 ^ 32 → beVal (packBE32 n) = n) := by
  refine ⟨rfl, rfl, ?_, ?_⟩
  · intro n
    refine ⟨rfl, ?_⟩
    intro bv hbv
    simp only [packBE32, List.mem_cons, List.not_mem_nil, or_false] at hbv
    rcases hbv with h | h | h | h <;> subst h <;> omega
  · intro n hn
    simp only [beVal, packBE32, List.foldl_cons, List.foldl_nil]
    omega

/-- Witness for C2: a concrete canvas, compressor, checksum and length value. -/
theorem C2_png_stream_layout_witness :
    Canvas.png_stream id (fun _ => 7) (Canvas.init 1 1)
        = png_layout_spec id (fun _ => 7) (Canvas.init 1 1)
    ∧ beVal (packBE32 300) = 300 :=
  ⟨(C2_png_stream_layout id (fun _ => 7) (Canvas.init 1 1)).1,
   (C2_png_stream_layout id (fun _ => 7) (Canvas.init 1 1)).2.2.2 300 (by norm_num)⟩

end TechFlow
